import Mathlib

/-!
Shallow embedding of the repository source `src/Weird_Science.py`, function
`compute_roi_table`, together with proofs about it.

Modelling conventions, fixed once for the whole file:

* numpy floating point values are modelled by `ℚ`; one voxel of the scalar
  volume is an `Option ℚ`, with `none` standing for a non finite entry
  (NaN or an infinity), so that the `np.isfinite` filter of the source
  becomes an `Option` filter.
* a numpy array is modelled as its flat row major data list together with
  its shape; the boolean mask selection `md_data[atlas_data == lab]` of the
  source requires the two shapes to coincide and numpy raises `IndexError`
  when they do not, which the embedding models as an explicit error value.
* `np.unique` returns the distinct values in increasing order.
* `scipy.stats.mstats.winsorize(vals, limits=(trim, trim))` first validates
  `trim ∈ [0, 1]`, raising `ValueError` otherwise; it then replaces, with
  `n = len(vals)` and `k = int(trim * n)`, the `k` smallest entries by the
  entry of sorted rank `k` (0 based) and afterwards the `k` largest entries
  by the current entry of sorted rank `n - k - 1`; when `k ≥ n` the internal
  index `idx[k]` is out of bounds and numpy raises `IndexError`.  Because
  the second replacement happens after the first one, for `n ≤ 2 * k` the
  value it copies is already the low clamp value.  All statistics consumed
  downstream (`np.mean`, `np.median`, `np.percentile`) are invariant under
  permutations of their input, so the embedding returns the winsorized
  multiset in sorted order.
* `np.percentile(w, q)` with the default linear interpolation sorts its
  input and evaluates at the virtual position `q / 100 * (n - 1)`,
  interpolating linearly between the two adjacent order statistics.
* `np.median` returns the middle order statistic for odd length and the
  mean of the two middle order statistics for even length.
* `pandas.DataFrame.sort_values("MedianMD", ascending=False)` sorts the
  rows by `MedianMD` in descending order; the tie order of the underlying
  quicksort is unspecified, and no theorem below depends on the tie order.
-/

/-- A numpy array: flat row major data plus shape. -/
structure Volume (α : Type) where
  shape : List ℕ
  data : List α
deriving DecidableEq

/-- Errors that the numpy and scipy calls of the source can raise. -/
inductive NumpyError where
  | indexError : NumpyError
  | valueError : NumpyError
deriving DecidableEq

/-- Sorting a list of rationals in increasing order (used to model the
sorted order that numpy partitioning and scipy argsort work with). -/
def sortQ (l : List ℚ) : List ℚ :=
  l.insertionSort (· ≤ ·)

/-- Model of `np.unique`: the distinct values in increasing order. -/
def npUnique (l : List ℤ) : List ℤ :=
  l.dedup.insertionSort (· ≤ ·)

/-- Model of `md_data[atlas_data == lab]` followed by the
`vals[np.isfinite(vals)]` filter: the finite scalar values at the positions
whose label equals `lab`, in row major order. -/
def finiteVals (md : List (Option ℚ)) (atlas : List ℤ) (lab : ℤ) : List ℚ :=
  (atlas.zip md).filterMap fun p => if p.1 = lab then p.2 else none

/-- The number of finite voxels of region `lab`: the `vals.size` of the
source after the finiteness filter. -/
def finiteCount (md : Volume (Option ℚ)) (atlas : Volume ℤ) (lab : ℤ) : ℕ :=
  (finiteVals md.data atlas.data lab).length

/-- The replacement step of scipy winsorize on the sorted list `s`: the
first `k` entries are replaced by the entry at index `k`, then the last `k`
entries are replaced by the current entry at index `s.length - k - 1`
(which is the low clamp value already when `s.length ≤ 2 * k`, since the
low replacement has happened first). -/
def clampEnds (s : List ℚ) (k : ℕ) : List ℚ :=
  (List.range s.length).map fun i =>
    if i < k then s.getD k 0
    else if s.length - k ≤ i then
      (if s.length ≤ 2 * k then s.getD k 0 else s.getD (s.length - k - 1) 0)
    else s.getD i 0

/-- The winsorized values, in sorted order, with `k = int(trim * n)`. -/
def winsorizeList (vals : List ℚ) (t : ℚ) : List ℚ :=
  clampEnds (sortQ vals) (⌊t * (vals.length : ℚ)⌋).toNat

/-- Model of `scipy.stats.mstats.winsorize(vals, limits=(trim, trim))`:
`ValueError` for a limit outside `[0, 1]`, `IndexError` when the internal
sorted index `k = int(trim * n)` is out of bounds (in particular for empty
input), and otherwise the winsorized multiset in sorted order. -/
def winsorize (vals : List ℚ) (t : ℚ) : Except NumpyError (List ℚ) :=
  if t < 0 ∨ 1 < t then .error .valueError
  else if vals.length ≤ (⌊t * (vals.length : ℚ)⌋).toNat then .error .indexError
  else .ok (winsorizeList vals t)

/-- Model of `np.mean`. -/
def npMean (l : List ℚ) : ℚ :=
  l.sum / (l.length : ℚ)

/-- Model of `np.median`: middle order statistic, or the mean of the two
middle order statistics for even length. -/
def npMedian (l : List ℚ) : ℚ :=
  let s := sortQ l
  if s.length % 2 = 1 then s.getD (s.length / 2) 0
  else (s.getD (s.length / 2 - 1) 0 + s.getD (s.length / 2) 0) / 2

/-- Linear interpolation of the sorted list `s` at virtual position `h`:
the gather and lerp step of `np.percentile`. -/
def interpVal (s : List ℚ) (h : ℚ) : ℚ :=
  s.getD (⌊h⌋).toNat 0 + (h - ⌊h⌋) * (s.getD ((⌊h⌋).toNat + 1) 0 - s.getD (⌊h⌋).toNat 0)

/-- Percentile of an already sorted list with the numpy default linear
interpolation rule: virtual position `q / 100 * (n - 1)`. -/
def percentileSorted (s : List ℚ) (q : ℚ) : ℚ :=
  interpVal s (q / 100 * ((s.length : ℚ) - 1))

/-- Model of `np.percentile(l, q)`: sorts, then interpolates. -/
def npPercentile (l : List ℚ) (q : ℚ) : ℚ :=
  percentileSorted (sortQ l) q

/-- One entry of the `rows` list of the source, before rescaling: the raw
(unscaled) statistics of one region. -/
structure RawRow where
  RegionLabel : ℤ
  n_vox : ℕ
  MeanMD_raw : ℚ
  MedianMD_raw : ℚ
  Q1_raw : ℚ
  Q3_raw : ℚ
  IQR_raw : ℚ
deriving DecidableEq

/-- One row of the final table, after rescaling. -/
structure Row where
  RegionLabel : ℤ
  n_vox : ℕ
  MeanMD : ℚ
  MedianMD : ℚ
  Q1 : ℚ
  Q3 : ℚ
  IQR : ℚ
deriving DecidableEq

/-- The dictionary appended to `rows` for one region: label, finite voxel
count, and the statistics of the winsorized values `w`. -/
def mkRawRow (lab : ℤ) (vals w : List ℚ) : RawRow :=
  { RegionLabel := lab
    n_vox := vals.length
    MeanMD_raw := npMean w
    MedianMD_raw := npMedian w
    Q1_raw := npPercentile w 25
    Q3_raw := npPercentile w 75
    IQR_raw := npPercentile w 75 - npPercentile w 25 }

/-- The raw row of a qualifying region, written with the total winsorize
result (used to state what `buildRows` produces when no error occurs). -/
def rawStatsRow (vals : List ℚ) (lab : ℤ) (t : ℚ) : RawRow :=
  mkRawRow lab vals (winsorizeList vals t)

/-- The per label loop of the source: for each label, mask (raising
`IndexError` on a shape mismatch, as numpy boolean indexing does), filter
the finite values, drop the region when the count is below `min_voxels`,
winsorize, and append the statistics row.  The first error aborts the
whole computation, exactly like a python exception. -/
def buildRows (md : Volume (Option ℚ)) (atlas : Volume ℤ) (min_voxels : ℤ) (trim : ℚ) :
    List ℤ → Except NumpyError (List RawRow)
  | [] => .ok []
  | lab :: rest =>
    if md.shape ≠ atlas.shape then .error .indexError
    else if ((finiteVals md.data atlas.data lab).length : ℤ) < min_voxels then
      buildRows md atlas min_voxels trim rest
    else
      match winsorize (finiteVals md.data atlas.data lab) trim with
      | .error e => .error e
      | .ok w =>
        match buildRows md atlas min_voxels trim rest with
        | .error e => .error e
        | .ok rs => .ok (mkRawRow lab (finiteVals md.data atlas.data lab) w :: rs)

/-- The rescaling step of the source: every statistic is multiplied by
`1e3`, label and voxel count are copied unchanged. -/
def rescaleRow (r : RawRow) : Row :=
  { RegionLabel := r.RegionLabel
    n_vox := r.n_vox
    MeanMD := r.MeanMD_raw * 1000
    MedianMD := r.MedianMD_raw * 1000
    Q1 := r.Q1_raw * 1000
    Q3 := r.Q3_raw * 1000
    IQR := r.IQR_raw * 1000 }

/-- The sort key of `df.sort_values("MedianMD", ascending=False)`:
descending by `MedianMD`. -/
def byMedianDesc (a b : Row) : Prop :=
  b.MedianMD ≤ a.MedianMD

instance : DecidableRel byMedianDesc :=
  fun a b => inferInstanceAs (Decidable (b.MedianMD ≤ a.MedianMD))

instance : IsTotal Row byMedianDesc :=
  ⟨fun a b => le_total b.MedianMD a.MedianMD⟩

instance : IsTrans Row byMedianDesc :=
  ⟨fun _ _ _ h1 h2 => le_trans h2 h1⟩

/-- Model of the final `df.sort_values("MedianMD", ascending=False)`. -/
def sortRows (rows : List Row) : List Row :=
  rows.insertionSort byMedianDesc

/-- Lines 18 and 19 of the source: `np.unique(atlas_data)` with the
background label 0 dropped. -/
def roiLabels (atlas : Volume ℤ) : List ℤ :=
  (npUnique atlas.data).filter fun lab => lab != 0

/-- The embedding of `compute_roi_table` itself.  Defaults as in the
source: `min_voxels = 30` and `trim = 0.025 = 1/40`.  An empty `rows` list
yields the explicitly empty table (the source returns an empty DataFrame
that still carries the seven column schema; here the type `List Row` holds
the seven field schema). -/
def compute_roi_table (md : Volume (Option ℚ)) (atlas : Volume ℤ)
    (min_voxels : ℤ := 30) (trim : ℚ := 1/40) : Except NumpyError (List Row) :=
  match buildRows md atlas min_voxels trim (roiLabels atlas) with
  | .error e => .error e
  | .ok raws => .ok (sortRows (raws.map rescaleRow))

/-- Modelled from the specification wording (claim C3), not from the
source: sort `V`, let `k = ⌊t * |V|⌋`, replace the `k` lowest values by the
value of rank `k + 1` and the `k` highest values by the value of rank
`|V| - k` (ranks are 1 based, so rank `r` is index `r - 1`). -/
def winsorizeSpec (V : List ℚ) (t : ℚ) : List ℚ :=
  let s := sortQ V
  let n := s.length
  let k := (⌊t * (V.length : ℚ)⌋).toNat
  (List.range n).map fun i =>
    if i < k then s.getD ((k + 1) - 1) 0
    else if n - k ≤ i then s.getD ((n - k) - 1) 0
    else s.getD i 0

/-- The region gate of the source loop, as an optional row: `none` when
the finite count is below `min_voxels`, otherwise the statistics row. -/
def qualRaw (md : Volume (Option ℚ)) (atlas : Volume ℤ) (mv : ℤ) (t : ℚ) (lab : ℤ) :
    Option RawRow :=
  let vals := finiteVals md.data atlas.data lab
  if (vals.length : ℤ) < mv then none else some (rawStatsRow vals lab t)

/-- The smallest element of a list of rationals (0 for an empty list). -/
def sMin (l : List ℚ) : ℚ :=
  (sortQ l).getD 0 0

/-- The largest element of a list of rationals (0 for an empty list). -/
def sMax (l : List ℚ) : ℚ :=
  (sortQ l).getD ((sortQ l).length - 1) 0

/-! Basic facts about the sorting, selection and interpolation helpers. -/

lemma sortQ_sorted (l : List ℚ) : (sortQ l).Sorted (· ≤ ·) :=
  List.sorted_insertionSort _ l

lemma sortQ_perm (l : List ℚ) : List.Perm (sortQ l) l :=
  List.perm_insertionSort _ l

lemma sortQ_length (l : List ℚ) : (sortQ l).length = l.length :=
  (sortQ_perm l).length_eq

lemma mem_sortQ {l : List ℚ} {x : ℚ} : x ∈ sortQ l ↔ x ∈ l :=
  (sortQ_perm l).mem_iff

lemma sortQ_of_sorted {l : List ℚ} (h : l.Sorted (· ≤ ·)) : sortQ l = l :=
  h.insertionSort_eq

lemma sortQ_sortQ (l : List ℚ) : sortQ (sortQ l) = sortQ l :=
  sortQ_of_sorted (sortQ_sorted l)

lemma sortQ_ne_nil {l : List ℚ} (h : l ≠ []) : sortQ l ≠ [] := by
  intro hc
  exact h (List.length_eq_zero.1 (by rw [← sortQ_length l, hc]; rfl))

lemma getD_mem {l : List ℚ} {i : ℕ} (h : i < l.length) : l.getD i 0 ∈ l := by
  rw [List.getD_eq_getElem _ _ h]
  exact l.getElem_mem h

lemma sorted_getD_mono {s : List ℚ} (hs : s.Sorted (· ≤ ·)) {i j : ℕ}
    (hij : i ≤ j) (hj : j < s.length) : s.getD i 0 ≤ s.getD j 0 := by
  have hi : i < s.length := lt_of_le_of_lt hij hj
  rw [List.getD_eq_getElem _ _ hi, List.getD_eq_getElem _ _ hj]
  have h := hs.rel_get_of_le (show (⟨i, hi⟩ : Fin s.length) ≤ ⟨j, hj⟩ from hij)
  simpa using h

lemma sMin_le_mem {l : List ℚ} {x : ℚ} (hx : x ∈ l) : sMin l ≤ x := by
  obtain ⟨i, hi⟩ := List.mem_iff_get.1 (mem_sortQ.2 hx)
  rw [sMin, ← hi, List.get_eq_getElem]
  have h := sorted_getD_mono (sortQ_sorted l) (Nat.zero_le i) i.isLt
  rwa [List.getD_eq_getElem _ _ i.isLt] at h

lemma mem_le_sMax {l : List ℚ} {x : ℚ} (hx : x ∈ l) : x ≤ sMax l := by
  obtain ⟨i, hi⟩ := List.mem_iff_get.1 (mem_sortQ.2 hx)
  rw [sMax, ← hi, List.get_eq_getElem]
  have hlast : (sortQ l).length - 1 < (sortQ l).length := by
    have : (i : ℕ) < (sortQ l).length := i.isLt
    omega
  have h := sorted_getD_mono (sortQ_sorted l) (by omega : (i : ℕ) ≤ (sortQ l).length - 1) hlast
  rwa [List.getD_eq_getElem _ _ i.isLt] at h

lemma frac_nonneg (h : ℚ) : 0 ≤ h - ⌊h⌋ :=
  sub_nonneg.2 (Int.floor_le h)

lemma frac_lt_one (h : ℚ) : h - ⌊h⌋ < 1 := by
  linarith [Int.lt_floor_add_one h]

lemma length_pos_of_interp {s : List ℚ} {h : ℚ}
    (h0 : 0 ≤ h) (h1 : h ≤ (s.length : ℚ) - 1) : 1 ≤ s.length := by
  by_contra hc
  have : s.length = 0 := by omega
  rw [this] at h1
  norm_num at h1
  linarith

lemma floor_toNat_lt {s : List ℚ} {h : ℚ}
    (h0 : 0 ≤ h) (h1 : h ≤ (s.length : ℚ) - 1) : (⌊h⌋).toNat < s.length := by
  have hn := length_pos_of_interp h0 h1
  have hfl : ⌊h⌋ ≤ (s.length : ℤ) - 1 := by
    have h2 : h ≤ (((s.length : ℤ) - 1 : ℤ) : ℚ) := by push_cast; linarith
    have h3 := Int.floor_le_floor h2
    rwa [Int.floor_intCast] at h3
  omega

lemma interp_frac_zero {s : List ℚ} {h : ℚ} (hfr : h - (⌊h⌋ : ℚ) = 0) :
    interpVal s h = s.getD (⌊h⌋).toNat 0 := by
  rw [interpVal, hfr]
  ring

lemma interp_at_top {s : List ℚ} {h : ℚ} (h0 : 0 ≤ h) (h1 : h ≤ (s.length : ℚ) - 1)
    (hge : s.length ≤ (⌊h⌋).toNat + 1) : h - (⌊h⌋ : ℚ) = 0 := by
  have hn := length_pos_of_interp h0 h1
  have hfl0 : 0 ≤ ⌊h⌋ := Int.floor_nonneg.2 h0
  have hzn : ((s.length : ℤ) - 1) ≤ ⌊h⌋ := by omega
  have hq : ((s.length : ℚ) - 1) ≤ (⌊h⌋ : ℚ) := by exact_mod_cast hzn
  have hle := Int.floor_le h
  linarith

lemma getD_floor_le_interp {s : List ℚ} (hs : s.Sorted (· ≤ ·)) {h : ℚ}
    (h0 : 0 ≤ h) (h1 : h ≤ (s.length : ℚ) - 1) :
    s.getD (⌊h⌋).toNat 0 ≤ interpVal s h := by
  by_cases hlt : (⌊h⌋).toNat + 1 < s.length
  · have hmono := sorted_getD_mono hs (Nat.le_succ (⌊h⌋).toNat) hlt
    have hf := frac_nonneg h
    rw [interpVal]
    nlinarith [mul_nonneg hf (sub_nonneg.2 hmono)]
  · rw [interp_frac_zero (interp_at_top h0 h1 (by omega))]

lemma interp_le_getD_succ {s : List ℚ} (hs : s.Sorted (· ≤ ·)) {h : ℚ}
    (hlt : (⌊h⌋).toNat + 1 < s.length) :
    interpVal s h ≤ s.getD ((⌊h⌋).toNat + 1) 0 := by
  have hmono := sorted_getD_mono hs (Nat.le_succ (⌊h⌋).toNat) hlt
  have hf1 := frac_lt_one h
  rw [interpVal]
  nlinarith [mul_nonneg (by linarith : (0:ℚ) ≤ 1 - (h - ⌊h⌋)) (sub_nonneg.2 hmono)]

lemma interp_mono {s : List ℚ} (hs : s.Sorted (· ≤ ·)) {g h : ℚ}
    (h0 : 0 ≤ g) (hgh : g ≤ h) (h1 : h ≤ (s.length : ℚ) - 1) :
    interpVal s g ≤ interpVal s h := by
  have hg1 : g ≤ (s.length : ℚ) - 1 := le_trans hgh h1
  have hh0 : 0 ≤ h := le_trans h0 hgh
  have hfl : ⌊g⌋ ≤ ⌊h⌋ := Int.floor_le_floor hgh
  have hg0 : 0 ≤ ⌊g⌋ := Int.floor_nonneg.2 h0
  rcases eq_or_lt_of_le hfl with heq | hlt
  · by_cases hend : (⌊g⌋).toNat + 1 < s.length
    · have hmono := sorted_getD_mono hs (Nat.le_succ (⌊g⌋).toNat) hend
      rw [interpVal, interpVal, ← heq]
      nlinarith [mul_nonneg (sub_nonneg.2 hgh) (sub_nonneg.2 hmono)]
    · have hzg := interp_at_top h0 hg1 (by omega)
      have hzh := interp_at_top hh0 h1 (by rw [← heq]; omega)
      have hcast : ((⌊g⌋ : ℤ) : ℚ) = ((⌊h⌋ : ℤ) : ℚ) := by exact_mod_cast heq
      have hge : g = h := by linarith
      rw [hge]
  · have hh0z : 0 ≤ ⌊h⌋ := le_trans hg0 (le_of_lt hlt)
    have hhn : (⌊h⌋).toNat < s.length := floor_toNat_lt hh0 h1
    have hstep : (⌊g⌋).toNat + 1 ≤ (⌊h⌋).toNat := by omega
    have hgend : (⌊g⌋).toNat + 1 < s.length := by omega
    calc interpVal s g ≤ s.getD ((⌊g⌋).toNat + 1) 0 := interp_le_getD_succ hs hgend
      _ ≤ s.getD ((⌊h⌋).toNat) 0 := sorted_getD_mono hs hstep hhn
      _ ≤ interpVal s h := getD_floor_le_interp hs hh0 h1

lemma interp_bounds {s : List ℚ} (hs : s.Sorted (· ≤ ·)) {lo hi : ℚ}
    (hlo : ∀ x ∈ s, lo ≤ x) (hhi : ∀ x ∈ s, x ≤ hi) {h : ℚ}
    (h0 : 0 ≤ h) (h1 : h ≤ (s.length : ℚ) - 1) :
    lo ≤ interpVal s h ∧ interpVal s h ≤ hi := by
  have hfn : (⌊h⌋).toNat < s.length := floor_toNat_lt h0 h1
  have ha := getD_mem hfn
  by_cases hend : (⌊h⌋).toNat + 1 < s.length
  · have hb := getD_mem hend
    constructor
    · exact le_trans (hlo _ ha) (getD_floor_le_interp hs h0 h1)
    · exact le_trans (interp_le_getD_succ hs hend) (hhi _ hb)
  · rw [interp_frac_zero (interp_at_top h0 h1 (by omega))]
    exact ⟨hlo _ ha, hhi _ ha⟩

lemma percentile_pos_bounds {s : List ℚ} (hn : 1 ≤ s.length) {q : ℚ}
    (hq0 : 0 ≤ q) (hq1 : q ≤ 100) :
    0 ≤ q / 100 * ((s.length : ℚ) - 1) ∧
      q / 100 * ((s.length : ℚ) - 1) ≤ (s.length : ℚ) - 1 := by
  have hlen : (1:ℚ) ≤ (s.length : ℚ) := by exact_mod_cast hn
  constructor
  · exact mul_nonneg (div_nonneg hq0 (by norm_num)) (by linarith)
  · have hq100 : q / 100 ≤ 1 := (div_le_one (by norm_num)).2 hq1
    nlinarith

lemma percentileSorted_mono {s : List ℚ} (hs : s.Sorted (· ≤ ·)) (hn : 1 ≤ s.length)
    {q r : ℚ} (hq0 : 0 ≤ q) (hqr : q ≤ r) (hr1 : r ≤ 100) :
    percentileSorted s q ≤ percentileSorted s r := by
  have hlen : (1:ℚ) ≤ (s.length : ℚ) := by exact_mod_cast hn
  rw [percentileSorted, percentileSorted]
  apply interp_mono hs (percentile_pos_bounds hn hq0 (le_trans hqr hr1)).1 ?_
    (percentile_pos_bounds hn (le_trans hq0 hqr) hr1).2
  exact mul_le_mul_of_nonneg_right (by linarith) (by linarith)

lemma percentileSorted_bounds {s : List ℚ} (hs : s.Sorted (· ≤ ·)) (hn : 1 ≤ s.length)
    {lo hi : ℚ} (hlo : ∀ x ∈ s, lo ≤ x) (hhi : ∀ x ∈ s, x ≤ hi)
    {q : ℚ} (hq0 : 0 ≤ q) (hq1 : q ≤ 100) :
    lo ≤ percentileSorted s q ∧ percentileSorted s q ≤ hi :=
  interp_bounds hs hlo hhi (percentile_pos_bounds hn hq0 hq1).1
    (percentile_pos_bounds hn hq0 hq1).2

lemma npMedian_eq_percentile (l : List ℚ) (hne : l ≠ []) :
    npMedian l = percentileSorted (sortQ l) 50 := by
  have hn : 1 ≤ (sortQ l).length := by
    rw [sortQ_length]
    exact List.length_pos.2 hne
  rw [npMedian, percentileSorted]
  rcases Nat.even_or_odd (sortQ l).length with he | ho
  · obtain ⟨m, hm⟩ := he
    have hm1 : 1 ≤ m := by omega
    have hpar : ¬ ((sortQ l).length % 2 = 1) := by omega
    rw [if_neg hpar]
    have hh : (50:ℚ)/100 * (((sortQ l).length : ℚ) - 1) = (m : ℚ) - 1/2 := by
      rw [hm]; push_cast; ring
    rw [hh]
    have hfl : ⌊(m : ℚ) - 1/2⌋ = (m : ℤ) - 1 := by
      rw [Int.floor_eq_iff]
      constructor
      · push_cast; linarith
      · push_cast; linarith
    rw [interpVal, hfl]
    have ht : ((m:ℤ) - 1).toNat = m - 1 := by omega
    rw [ht]
    have hidx : m - 1 + 1 = m := by omega
    rw [hidx]
    have hl2 : (sortQ l).length / 2 = m := by omega
    rw [hl2]
    push_cast
    ring
  · obtain ⟨m, hm⟩ := ho
    have hpar : (sortQ l).length % 2 = 1 := by omega
    rw [if_pos hpar]
    have hh : (50:ℚ)/100 * (((sortQ l).length : ℚ) - 1) = (m : ℚ) := by
      rw [hm]; push_cast; ring
    rw [hh]
    have hfl : ⌊(m:ℚ)⌋ = (m:ℤ) := Int.floor_natCast m
    rw [interpVal, hfl]
    have ht : ((m:ℤ)).toNat = m := by omega
    rw [ht]
    have hl2 : (sortQ l).length / 2 = m := by omega
    rw [hl2]
    push_cast
    ring

lemma npMean_bounds {l : List ℚ} (hne : l ≠ []) {lo hi : ℚ}
    (hlo : ∀ x ∈ l, lo ≤ x) (hhi : ∀ x ∈ l, x ≤ hi) :
    lo ≤ npMean l ∧ npMean l ≤ hi := by
  have h1 := List.card_nsmul_le_sum l lo hlo
  have h2 := List.sum_le_card_nsmul l hi hhi
  rw [nsmul_eq_mul] at h1 h2
  have hn : (0:ℚ) < (l.length : ℚ) := by
    have := List.length_pos.2 hne
    exact_mod_cast this
  rw [npMean]
  constructor
  · rw [le_div_iff₀ hn]
    nlinarith
  · rw [div_le_iff₀ hn]
    nlinarith

/-! Facts about the winsorization step. -/

lemma clampEnds_length (s : List ℚ) (k : ℕ) : (clampEnds s k).length = s.length := by
  simp [clampEnds]

lemma winsorizeList_length (vals : List ℚ) (t : ℚ) :
    (winsorizeList vals t).length = vals.length := by
  rw [winsorizeList, clampEnds_length, sortQ_length]

lemma clampEnds_zero (s : List ℚ) : clampEnds s 0 = s := by
  apply List.ext_getElem (by simp [clampEnds])
  intro i h1 h2
  simp only [clampEnds, List.getElem_map, List.getElem_range]
  rw [if_neg (Nat.not_lt_zero i), if_neg (by omega), List.getD_eq_getElem _ _ h2]

lemma winsorizeList_zero (vals : List ℚ) : winsorizeList vals 0 = sortQ vals := by
  rw [winsorizeList]
  norm_num
  exact clampEnds_zero _

lemma clampEnds_mem {s : List ℚ} {k : ℕ} (hk : k < s.length) {x : ℚ}
    (hx : x ∈ clampEnds s k) : x ∈ s := by
  rw [clampEnds] at hx
  obtain ⟨i, hi, hval⟩ := List.mem_map.1 hx
  rw [List.mem_range] at hi
  rw [← hval]
  split_ifs
  · exact getD_mem hk
  · exact getD_mem hk
  · exact getD_mem (by omega)
  · exact getD_mem hi

lemma winsorizeList_mem {vals : List ℚ} {t : ℚ}
    (hk : (⌊t * (vals.length : ℚ)⌋).toNat < vals.length) {x : ℚ}
    (hx : x ∈ winsorizeList vals t) : x ∈ vals := by
  rw [winsorizeList] at hx
  exact mem_sortQ.1 (clampEnds_mem (by rw [sortQ_length]; exact hk) hx)

lemma winsorize_ok {vals : List ℚ} {t : ℚ} (ht0 : 0 ≤ t) (ht1 : t < 1) (hne : vals ≠ []) :
    winsorize vals t = .ok (winsorizeList vals t) ∧
      (⌊t * (vals.length : ℚ)⌋).toNat < vals.length := by
  have hn : 1 ≤ vals.length := List.length_pos.2 hne
  have hfl : ⌊t * (vals.length : ℚ)⌋ < (vals.length : ℤ) := by
    apply Int.floor_lt.2
    push_cast
    have hp : (0:ℚ) < (vals.length : ℚ) := by exact_mod_cast hn
    nlinarith
  have hk : (⌊t * (vals.length : ℚ)⌋).toNat < vals.length := by omega
  refine ⟨?_, hk⟩
  rw [winsorize, if_neg (by push_neg; exact ⟨ht0, le_of_lt ht1⟩), if_neg (by omega)]

lemma winsorizeSpec_eq {vals : List ℚ} {t : ℚ} (ht0 : 0 ≤ t) (ht2 : t < 1/2)
    (hne : vals ≠ []) : winsorizeSpec vals t = winsorizeList vals t := by
  have hn : 1 ≤ vals.length := List.length_pos.2 hne
  have hp : (0:ℚ) < (vals.length : ℚ) := by exact_mod_cast hn
  have hfl : 2 * ⌊t * (vals.length : ℚ)⌋ < (vals.length : ℤ) := by
    have h2 : ⌊t * (vals.length : ℚ)⌋ ≤ t * (vals.length : ℚ) := Int.floor_le _
    have h3 : t * (vals.length : ℚ) < 1/2 * (vals.length : ℚ) :=
      mul_lt_mul_of_pos_right ht2 hp
    have h4 : (2:ℚ) * ⌊t * (vals.length : ℚ)⌋ < (vals.length : ℚ) := by linarith
    exact_mod_cast h4
  have h2k : ¬ ((sortQ vals).length ≤ 2 * (⌊t * (vals.length : ℚ)⌋).toNat) := by
    rw [sortQ_length]
    omega
  rw [winsorizeSpec, winsorizeList, clampEnds, if_neg h2k]
  simp only [Nat.add_sub_cancel]

/-! Facts about labels, the per label loop and the final assembly. -/

lemma npUnique_nodup (l : List ℤ) : (npUnique l).Nodup :=
  ((List.perm_insertionSort _ _).nodup_iff).2 l.nodup_dedup

lemma mem_npUnique {l : List ℤ} {a : ℤ} : a ∈ npUnique l ↔ a ∈ l := by
  rw [npUnique, List.mem_insertionSort, List.mem_dedup]

lemma roiLabels_nodup (atlas : Volume ℤ) : (roiLabels atlas).Nodup :=
  (npUnique_nodup _).filter _

lemma mem_roiLabels {atlas : Volume ℤ} {lab : ℤ} :
    lab ∈ roiLabels atlas ↔ lab ∈ atlas.data ∧ lab ≠ 0 := by
  rw [roiLabels, List.mem_filter, mem_npUnique, bne_iff_ne]

lemma mem_data_of_finiteVals_ne_nil {md : List (Option ℚ)} {atlas : List ℤ} {lab : ℤ}
    (h : finiteVals md atlas lab ≠ []) : lab ∈ atlas := by
  obtain ⟨x, hx⟩ := List.exists_mem_of_ne_nil _ h
  rw [finiteVals] at hx
  obtain ⟨⟨a, m⟩, hmem, hsome⟩ := List.mem_filterMap.1 hx
  by_cases hla : a = lab
  · rw [← hla]
    exact (List.of_mem_zip hmem).1
  · rw [if_neg hla] at hsome
    cases hsome

instance : IsRefl Row byMedianDesc :=
  ⟨fun a => le_refl a.MedianMD⟩

lemma sortRows_perm (rows : List Row) : List.Perm (sortRows rows) rows :=
  List.perm_insertionSort _ rows

lemma sortRows_sorted (rows : List Row) : (sortRows rows).Sorted byMedianDesc :=
  List.sorted_insertionSort _ rows

lemma rescale_label_map (raws : List RawRow) :
    (raws.map rescaleRow).map Row.RegionLabel = raws.map RawRow.RegionLabel := by
  rw [List.map_map]
  rfl

lemma winsorize_ok_inv {vals : List ℚ} {t : ℚ} {w : List ℚ}
    (h : winsorize vals t = .ok w) :
    w = winsorizeList vals t ∧ (⌊t * (vals.length : ℚ)⌋).toNat < vals.length := by
  rw [winsorize] at h
  by_cases h1 : t < 0 ∨ 1 < t
  · rw [if_pos h1] at h
    exact absurd h (by simp)
  · rw [if_neg h1] at h
    by_cases h2 : vals.length ≤ (⌊t * (vals.length : ℚ)⌋).toNat
    · rw [if_pos h2] at h
      exact absurd h (by simp)
    · rw [if_neg h2] at h
      injection h with h
      exact ⟨h.symm, by omega⟩

lemma buildRows_skip_all {md : Volume (Option ℚ)} {atlas : Volume ℤ} {mv : ℤ} {t : ℚ}
    (hsh : md.shape = atlas.shape) :
    ∀ ls, (∀ lab ∈ ls, ((finiteVals md.data atlas.data lab).length : ℤ) < mv) →
      buildRows md atlas mv t ls = .ok [] := by
  intro ls
  induction ls with
  | nil => intro _; rfl
  | cons lab rest ih =>
    intro h
    rw [buildRows, if_neg (not_ne_iff.2 hsh), if_pos (h lab (List.mem_cons_self lab rest))]
    exact ih fun l hl => h l (List.mem_cons_of_mem _ hl)

lemma buildRows_eq_ok {md : Volume (Option ℚ)} {atlas : Volume ℤ} {mv : ℤ} {t : ℚ}
    (hsh : md.shape = atlas.shape) (ht0 : 0 ≤ t) (ht1 : t < 1) (hmv : 1 ≤ mv) :
    ∀ ls, buildRows md atlas mv t ls = .ok (ls.filterMap (qualRaw md atlas mv t)) := by
  intro ls
  induction ls with
  | nil => rfl
  | cons lab rest ih =>
    rw [buildRows, if_neg (not_ne_iff.2 hsh)]
    by_cases hq : ((finiteVals md.data atlas.data lab).length : ℤ) < mv
    · rw [if_pos hq, ih, List.filterMap_cons]
      rw [show qualRaw md atlas mv t lab = none from by rw [qualRaw, if_pos hq]]
    · rw [if_neg hq]
      have hne : finiteVals md.data atlas.data lab ≠ [] := by
        intro hemp
        rw [hemp] at hq
        simp at hq
        omega
      obtain ⟨hw, _⟩ := winsorize_ok ht0 ht1 hne
      have hqr : qualRaw md atlas mv t lab =
          some (rawStatsRow (finiteVals md.data atlas.data lab) lab t) := by
        rw [qualRaw, if_neg hq]
      rw [hw]
      dsimp only
      rw [ih]
      rw [List.filterMap_cons, hqr]
      rfl

lemma buildRows_ok_inv {md : Volume (Option ℚ)} {atlas : Volume ℤ} {mv : ℤ} {t : ℚ} :
    ∀ ls raws, buildRows md atlas mv t ls = .ok raws →
      List.Sublist (raws.map RawRow.RegionLabel) ls ∧
      ∀ raw ∈ raws, ∃ lab ∈ ls,
        mv ≤ ((finiteVals md.data atlas.data lab).length : ℤ) ∧
        (⌊t * ((finiteVals md.data atlas.data lab).length : ℚ)⌋).toNat <
          (finiteVals md.data atlas.data lab).length ∧
        raw = rawStatsRow (finiteVals md.data atlas.data lab) lab t := by
  intro ls
  induction ls with
  | nil =>
    intro raws h
    rw [buildRows] at h
    injection h with h
    subst h
    exact ⟨List.nil_sublist _, by simp⟩
  | cons lab rest ih =>
    intro raws h
    rw [buildRows] at h
    by_cases hsh : md.shape ≠ atlas.shape
    · rw [if_pos hsh] at h
      exact absurd h (by simp)
    · rw [if_neg hsh] at h
      by_cases hq : ((finiteVals md.data atlas.data lab).length : ℤ) < mv
      · rw [if_pos hq] at h
        obtain ⟨hsub, hmem⟩ := ih raws h
        refine ⟨hsub.cons lab, ?_⟩
        intro raw hraw
        obtain ⟨l2, hl2, hrest⟩ := hmem raw hraw
        exact ⟨l2, List.mem_cons_of_mem _ hl2, hrest⟩
      · rw [if_neg hq] at h
        cases hw : winsorize (finiteVals md.data atlas.data lab) t with
        | error e =>
          rw [hw] at h
          exact absurd h (by simp)
        | ok w =>
          rw [hw] at h
          cases hb : buildRows md atlas mv t rest with
          | error e =>
            rw [hb] at h
            exact absurd h (by simp)
          | ok rs =>
            rw [hb] at h
            dsimp only at h
            injection h with h
            subst h
            obtain ⟨hsub, hmem⟩ := ih rs hb
            obtain ⟨hwid, hk⟩ := winsorize_ok_inv hw
            constructor
            · rw [List.map_cons]
              exact hsub.cons₂ _
            · intro raw hraw
              rcases List.mem_cons.1 hraw with heq | hmem2
              · refine ⟨lab, List.mem_cons_self lab rest, not_lt.1 hq, hk, ?_⟩
                rw [heq, hwid]
                rfl
              · obtain ⟨l2, hl2, hrest⟩ := hmem raw hmem2
                exact ⟨l2, List.mem_cons_of_mem _ hl2, hrest⟩

lemma compute_ok_inv {md : Volume (Option ℚ)} {atlas : Volume ℤ} {mv : ℤ} {t : ℚ}
    {rows : List Row} (h : compute_roi_table md atlas mv t = .ok rows) :
    ∃ raws, buildRows md atlas mv t (roiLabels atlas) = .ok raws ∧
      rows = sortRows (raws.map rescaleRow) := by
  rw [compute_roi_table] at h
  cases hb : buildRows md atlas mv t (roiLabels atlas) with
  | error e =>
    rw [hb] at h
    exact absurd h (by simp)
  | ok raws =>
    rw [hb] at h
    dsimp only at h
    injection h with h
    exact ⟨raws, rfl, h.symm⟩

lemma compute_eq_ok {md : Volume (Option ℚ)} {atlas : Volume ℤ} {mv : ℤ} {t : ℚ}
    (hsh : md.shape = atlas.shape) (ht0 : 0 ≤ t) (ht1 : t < 1) (hmv : 1 ≤ mv) :
    compute_roi_table md atlas mv t =
      .ok (sortRows (((roiLabels atlas).filterMap (qualRaw md atlas mv t)).map rescaleRow)) := by
  rw [compute_roi_table, buildRows_eq_ok hsh ht0 ht1 hmv]

lemma compute_empty_labels {md : Volume (Option ℚ)} {atlas : Volume ℤ} {mv : ℤ} {t : ℚ}
    (h : roiLabels atlas = []) : compute_roi_table md atlas mv t = .ok [] := by
  rw [compute_roi_table, h]
  rfl

lemma rows_label_facts {md : Volume (Option ℚ)} {atlas : Volume ℤ} {mv : ℤ} {t : ℚ}
    {rows : List Row} (h : compute_roi_table md atlas mv t = .ok rows) :
    (rows.map Row.RegionLabel).Nodup ∧ ∀ r ∈ rows, r.RegionLabel ≠ 0 := by
  obtain ⟨raws, hb, hrows⟩ := compute_ok_inv h
  obtain ⟨hsub, _⟩ := buildRows_ok_inv _ _ hb
  have hperm : List.Perm (rows.map Row.RegionLabel) (raws.map RawRow.RegionLabel) := by
    rw [hrows, ← rescale_label_map]
    exact (sortRows_perm _).map _
  constructor
  · exact hperm.nodup_iff.2 ((roiLabels_nodup atlas).sublist hsub)
  · intro r hr
    have h1 : r.RegionLabel ∈ raws.map RawRow.RegionLabel :=
      hperm.subset (List.mem_map_of_mem _ hr)
    have h2 : r.RegionLabel ∈ roiLabels atlas := hsub.subset h1
    exact (mem_roiLabels.1 h2).2

lemma mem_rows_inv {md : Volume (Option ℚ)} {atlas : Volume ℤ} {mv : ℤ} {t : ℚ}
    {rows : List Row} (h : compute_roi_table md atlas mv t = .ok rows)
    {r : Row} (hr : r ∈ rows) :
    ∃ lab ∈ roiLabels atlas,
      mv ≤ ((finiteVals md.data atlas.data lab).length : ℤ) ∧
      (⌊t * ((finiteVals md.data atlas.data lab).length : ℚ)⌋).toNat <
        (finiteVals md.data atlas.data lab).length ∧
      r = rescaleRow (rawStatsRow (finiteVals md.data atlas.data lab) lab t) := by
  obtain ⟨raws, hb, hrows⟩ := compute_ok_inv h
  obtain ⟨_, hmem⟩ := buildRows_ok_inv _ _ hb
  rw [hrows] at hr
  have hr2 : r ∈ raws.map rescaleRow := (sortRows_perm _).subset hr
  obtain ⟨raw, hraw, hre⟩ := List.mem_map.1 hr2
  obtain ⟨lab, hlab, hge, hk, hid⟩ := hmem raw hraw
  exact ⟨lab, hlab, hge, hk, by rw [← hre, hid]⟩

lemma mem_rows_of_qualifies {md : Volume (Option ℚ)} {atlas : Volume ℤ} {mv : ℤ} {t : ℚ}
    (hsh : md.shape = atlas.shape) (ht0 : 0 ≤ t) (ht1 : t < 1) (hmv : 1 ≤ mv)
    {rows : List Row} (h : compute_roi_table md atlas mv t = .ok rows)
    {lab : ℤ} (hlab : lab ≠ 0)
    (hge : mv ≤ ((finiteVals md.data atlas.data lab).length : ℤ)) :
    rescaleRow (rawStatsRow (finiteVals md.data atlas.data lab) lab t) ∈ rows := by
  have hco := compute_eq_ok hsh ht0 ht1 hmv
  rw [h] at hco
  injection hco with hco
  have hne : finiteVals md.data atlas.data lab ≠ [] := by
    intro hemp
    rw [hemp] at hge
    simp at hge
    omega
  have hmem : lab ∈ roiLabels atlas :=
    mem_roiLabels.2 ⟨mem_data_of_finiteVals_ne_nil hne, hlab⟩
  have hq : qualRaw md atlas mv t lab =
      some (rawStatsRow (finiteVals md.data atlas.data lab) lab t) := by
    rw [qualRaw, if_neg (by omega)]
  rw [hco]
  apply (sortRows_perm _).mem_iff.2
  exact List.mem_map_of_mem _ (List.mem_filterMap.2 ⟨lab, hmem, hq⟩)

lemma count_label_eq_filter (rows : List Row) (lab : ℤ) :
    (rows.map Row.RegionLabel).count lab =
      (rows.filter fun r => r.RegionLabel == lab).length := by
  rw [← List.countP_eq_length_filter]
  simp [List.count, List.countP_map, Function.comp_def]

/-! Concrete inputs used by the witnesses and counterexamples below. -/

/-- Scalar volume with five voxels, three of them non finite. -/
def mdW : Volume (Option ℚ) := ⟨[5], [some 2, none, some 7, none, none]⟩

/-- Label volume of the same shape: regions 5, 7 and 9. -/
def atlasW : Volume ℤ := ⟨[5], [5, 5, 7, 7, 9]⟩

def rawW5 : RawRow := ⟨5, 1, 2, 2, 2, 2, 0⟩

def rawW7 : RawRow := ⟨7, 1, 7, 7, 7, 7, 0⟩

def rowW5 : Row := ⟨5, 1, 2000, 2000, 2000, 2000, 0⟩

def rowW7 : Row := ⟨7, 1, 7000, 7000, 7000, 7000, 0⟩

/-- Scalar volume of shape `[2]` (used with a mismatched label volume). -/
def mdC1 : Volume (Option ℚ) := ⟨[2], [some 2, some 2]⟩

/-- An all background label volume of shape `[1]`. -/
def atlasZero : Volume ℤ := ⟨[1], [0]⟩

/-- A one voxel scalar volume of shape `[1]`. -/
def mdC7 : Volume (Option ℚ) := ⟨[1], [some 2]⟩

/-- A label volume carrying the negative region identifier `-1`. -/
def atlasC7 : Volume ℤ := ⟨[1], [-1]⟩

def rowC7 : Row := ⟨-1, 1, 2000, 2000, 2000, 2000, 0⟩

lemma labelsW_eval : roiLabels atlasW = [5, 7, 9] := by decide

lemma fvW5_eval : finiteVals mdW.data atlasW.data 5 = [2] := by decide

lemma fvW7_eval : finiteVals mdW.data atlasW.data 7 = [7] := by decide

lemma sortQ_singleton (v : ℚ) : sortQ [v] = [v] := by
  simp [sortQ, List.insertionSort, List.orderedInsert]

lemma npMean_singleton (v : ℚ) : npMean [v] = v := by
  simp [npMean]

lemma npMedian_singleton (v : ℚ) : npMedian [v] = v := by
  simp [npMedian, sortQ_singleton]

lemma npPercentile_singleton (v : ℚ) (q : ℚ) : npPercentile [v] q = v := by
  simp [npPercentile, percentileSorted, interpVal, sortQ_singleton]

lemma mkRawRow_singleton (lab : ℤ) (v : ℚ) :
    mkRawRow lab [v] [v] = ⟨lab, 1, v, v, v, v, 0⟩ := by
  simp [mkRawRow, npMean_singleton, npMedian_singleton, npPercentile_singleton]

lemma winsorize_singleton_zero (v : ℚ) : winsorize [v] 0 = .ok [v] := by
  have h := (winsorize_ok (le_rfl : (0:ℚ) ≤ 0) (by norm_num : (0:ℚ) < 1)
    (by simp : [v] ≠ ([] : List ℚ))).1
  rw [h, winsorizeList_zero, sortQ_singleton]

lemma buildRowsW_eval : buildRows mdW atlasW 1 0 [5, 7, 9] = .ok [rawW5, rawW7] := by
  rw [buildRows, if_neg (by decide), if_neg (by decide), fvW5_eval, winsorize_singleton_zero]
  dsimp only
  rw [buildRows, if_neg (by decide), if_neg (by decide), fvW7_eval, winsorize_singleton_zero]
  dsimp only
  rw [buildRows, if_neg (by decide), if_pos (by decide)]
  rw [buildRows]
  dsimp only
  rw [mkRawRow_singleton, mkRawRow_singleton]
  rfl

lemma computeW_eval : compute_roi_table mdW atlasW 1 0 = .ok [rowW7, rowW5] := by
  rw [compute_roi_table, labelsW_eval, buildRowsW_eval]
  dsimp only
  have hmap : [rawW5, rawW7].map rescaleRow = [rowW5, rowW7] := by
    norm_num [rescaleRow, rawW5, rawW7, rowW5, rowW7]
  have hsort : sortRows [rowW5, rowW7] = [rowW7, rowW5] := by
    norm_num [sortRows, List.insertionSort, List.orderedInsert, byMedianDesc, rowW5, rowW7]
  rw [hmap, hsort]

lemma labelsC7_eval : roiLabels atlasC7 = [-1] := by decide

lemma fvC7_eval : finiteVals mdC7.data atlasC7.data (-1) = [2] := by decide

lemma computeC7_eval : compute_roi_table mdC7 atlasC7 1 0 = .ok [rowC7] := by
  rw [compute_roi_table, labelsC7_eval]
  rw [buildRows, if_neg (by decide), if_neg (by decide), fvC7_eval, winsorize_singleton_zero]
  dsimp only
  rw [buildRows]
  dsimp only
  rw [mkRawRow_singleton]
  norm_num [sortRows, List.insertionSort, List.orderedInsert, rescaleRow, rowC7]

lemma npMean_sortQ (l : List ℚ) : npMean (sortQ l) = npMean l := by
  rw [npMean, npMean, sortQ_length, (sortQ_perm l).sum_eq]

lemma npMedian_sortQ (l : List ℚ) : npMedian (sortQ l) = npMedian l := by
  simp only [npMedian, sortQ_sortQ]

lemma npPercentile_sortQ (l : List ℚ) (q : ℚ) : npPercentile (sortQ l) q = npPercentile l q := by
  simp only [npPercentile, sortQ_sortQ]

/-! The claims. -/

/-- C1, counterexample: `compute_roi_table` does not perform the validation
the claim describes.  With volumes of different shapes (`[2]` against `[1]`)
and `min_voxels = 0 < 1` (and the default `trim = 1/40`), the call does not
fail at all: it returns the empty table, because the all background label
volume leaves no region to process. -/
theorem C1_counterexample :
    mdC1.shape ≠ atlasZero.shape ∧ (0:ℤ) < 1 ∧
      compute_roi_table mdC1 atlasZero 0 (1/40) = .ok [] :=
  ⟨by decide, by decide, compute_empty_labels (by decide)⟩

/-- C1, amended: `compute_roi_table` performs no input validation.  For
valid inputs (equal shapes, `0 ≤ trim < 0.5`, `min_voxels ≥ 1`) no failure
occurs; when no non background label exists the call succeeds with the
empty table even for mismatched shapes or invalid parameters; a shape
mismatch surfaces as an indexing error (from the numpy boolean mask, not a
dedicated ShapeMismatch failure) exactly when some non background label is
present. -/
theorem C1_amended_no_validation (md : Volume (Option ℚ)) (atlas : Volume ℤ)
    (mv : ℤ) (t : ℚ) :
    (md.shape = atlas.shape → 0 ≤ t → t < 1/2 → 1 ≤ mv →
      ∃ rows, compute_roi_table md atlas mv t = .ok rows) ∧
    (roiLabels atlas = [] → compute_roi_table md atlas mv t = .ok []) ∧
    (md.shape ≠ atlas.shape → roiLabels atlas ≠ [] →
      compute_roi_table md atlas mv t = .error .indexError) := by
  refine ⟨?_, fun h => compute_empty_labels h, ?_⟩
  · intro hsh ht0 ht2 hmv
    exact ⟨_, compute_eq_ok hsh ht0 (lt_trans ht2 (by norm_num)) hmv⟩
  · intro hsh hne
    obtain ⟨lab, rest, hcons⟩ := List.exists_cons_of_ne_nil hne
    rw [compute_roi_table, hcons, buildRows, if_pos hsh]

/-- C1, witness for the amended theorem at a concrete valid input. -/
theorem C1_witness :
    mdW.shape = atlasW.shape ∧ (0:ℚ) ≤ 0 ∧ (0:ℚ) < 1/2 ∧ (1:ℤ) ≤ 1 ∧
      ∃ rows, compute_roi_table mdW atlasW 1 0 = .ok rows :=
  ⟨by decide, le_rfl, by norm_num, le_rfl,
    (C1_amended_no_validation mdW atlasW 1 0).1 (by decide) le_rfl (by norm_num) le_rfl⟩

/-- C4: every row of the final table is the rescaling of exactly the raw
statistics row built in the loop: each statistic is the raw statistic
multiplied by 1000 (the fixed `1e3` scale of the source), while the label
and the voxel count are copied unchanged. -/
theorem C4_rescaling_law (md : Volume (Option ℚ)) (atlas : Volume ℤ) (mv : ℤ) (t : ℚ)
    (raws : List RawRow) (rows : List Row)
    (hraws : buildRows md atlas mv t (roiLabels atlas) = .ok raws)
    (hok : compute_roi_table md atlas mv t = .ok rows) :
    ∀ r ∈ rows, ∃ raw ∈ raws,
      r.MeanMD = raw.MeanMD_raw * 1000 ∧ r.MedianMD = raw.MedianMD_raw * 1000 ∧
      r.Q1 = raw.Q1_raw * 1000 ∧ r.Q3 = raw.Q3_raw * 1000 ∧ r.IQR = raw.IQR_raw * 1000 ∧
      r.RegionLabel = raw.RegionLabel ∧ r.n_vox = raw.n_vox := by
  obtain ⟨raws2, hb, hrows⟩ := compute_ok_inv hok
  rw [hraws] at hb
  injection hb with hb
  subst hb
  intro r hr
  rw [hrows] at hr
  obtain ⟨raw, hraw, hre⟩ := List.mem_map.1 ((sortRows_perm _).subset hr)
  refine ⟨raw, hraw, ?_⟩
  rw [← hre]
  exact ⟨rfl, rfl, rfl, rfl, rfl, rfl, rfl⟩

/-- C4, witness: the top row of the concrete table is the rescaling of one
of the raw rows. -/
theorem C4_witness :
    ∃ raw ∈ [rawW5, rawW7],
      rowW7.MeanMD = raw.MeanMD_raw * 1000 ∧ rowW7.MedianMD = raw.MedianMD_raw * 1000 ∧
      rowW7.Q1 = raw.Q1_raw * 1000 ∧ rowW7.Q3 = raw.Q3_raw * 1000 ∧
      rowW7.IQR = raw.IQR_raw * 1000 ∧
      rowW7.RegionLabel = raw.RegionLabel ∧ rowW7.n_vox = raw.n_vox :=
  C4_rescaling_law mdW atlasW 1 0 [rawW5, rawW7] [rowW7, rowW5]
    buildRowsW_eval computeW_eval rowW7 (by decide)

/-- C5: the final table is sorted by `MedianMD` in descending order: for
any positions `i ≤ j`, the `MedianMD` at `j` is at most the one at `i`. -/
theorem C5_sorted_descending (md : Volume (Option ℚ)) (atlas : Volume ℤ) (mv : ℤ) (t : ℚ)
    (rows : List Row) (hok : compute_roi_table md atlas mv t = .ok rows)
    (i j : ℕ) (hi : i < rows.length) (hj : j < rows.length) (hij : i ≤ j) :
    (rows.get ⟨j, hj⟩).MedianMD ≤ (rows.get ⟨i, hi⟩).MedianMD := by
  obtain ⟨raws, hb, hrows⟩ := compute_ok_inv hok
  have hs : rows.Sorted byMedianDesc := by
    rw [hrows]
    exact sortRows_sorted _
  exact hs.rel_get_of_le (show (⟨i, hi⟩ : Fin rows.length) ≤ ⟨j, hj⟩ from hij)

/-- C5, witness on the concrete two row table. -/
theorem C5_witness :
    (([rowW7, rowW5].get ⟨1, by decide⟩).MedianMD ≤
      ([rowW7, rowW5].get ⟨0, by decide⟩).MedianMD) :=
  C5_sorted_descending mdW atlasW 1 0 [rowW7, rowW5] computeW_eval 0 1
    (by decide) (by decide) (by decide)

/-- C7, counterexample: region labels are not necessarily positive.  A
label volume containing the label `-1` (with one finite voxel and
`min_voxels = 1`) produces a table whose only `RegionLabel` is `-1`. -/
theorem C7_counterexample :
    ∃ rows, compute_roi_table mdC7 atlasC7 1 0 = .ok rows ∧
      ∃ r ∈ rows, ¬ (0 < r.RegionLabel) :=
  ⟨[rowC7], computeC7_eval, rowC7, by decide, by decide⟩

/-- C7, amended: every `RegionLabel` of the table is a non zero integer
(not necessarily positive: negative input labels survive the
`labels != 0` filter of the source), and the labels are pairwise distinct
across rows. -/
theorem C7_amended_labels (md : Volume (Option ℚ)) (atlas : Volume ℤ) (mv : ℤ) (t : ℚ)
    (rows : List Row) (hok : compute_roi_table md atlas mv t = .ok rows) :
    (∀ r ∈ rows, r.RegionLabel ≠ 0) ∧ (rows.map Row.RegionLabel).Nodup := by
  obtain ⟨hnd, hnz⟩ := rows_label_facts hok
  exact ⟨hnz, hnd⟩

/-- C7, witness for the amended theorem on the concrete table. -/
theorem C7_witness :
    (∀ r ∈ [rowW7, rowW5], r.RegionLabel ≠ 0) ∧
      ([rowW7, rowW5].map Row.RegionLabel).Nodup :=
  C7_amended_labels mdW atlasW 1 0 [rowW7, rowW5] computeW_eval

/-- C9: whenever no region qualifies (every non background label has a
finite count below `min_voxels`; in particular when the label volume is
entirely 0, where the label list itself is empty), the function returns
the explicitly empty table `.ok []` of the seven field row type, not an
error and not an absent value. -/
theorem C9_empty_table (md : Volume (Option ℚ)) (atlas : Volume ℤ) (mv : ℤ) (t : ℚ)
    (hsh : md.shape = atlas.shape)
    (hnoq : ∀ lab ∈ roiLabels atlas, (finiteCount md atlas lab : ℤ) < mv) :
    compute_roi_table md atlas mv t = .ok [] := by
  rw [compute_roi_table, buildRows_skip_all hsh _ hnoq]
  rfl

/-- C9, witness: an all background label volume with the default
parameters yields the empty table. -/
theorem C9_witness :
    compute_roi_table mdC7 atlasZero 30 (1/40) = .ok [] :=
  C9_empty_table mdC7 atlasZero 30 (1/40) (by decide) (by decide)

/-- C2: for every non zero label whose finite count reaches `min_voxels`,
the table holds exactly one row with that `RegionLabel`, and its `n_vox`
is that finite count; a label with a smaller finite count has no row at
all; and label 0 never appears. -/
theorem C2_row_per_region (md : Volume (Option ℚ)) (atlas : Volume ℤ) (mv : ℤ) (t : ℚ)
    (rows : List Row)
    (hsh : md.shape = atlas.shape) (hmv : 1 ≤ mv) (ht0 : 0 ≤ t) (ht2 : t < 1/2)
    (hok : compute_roi_table md atlas mv t = .ok rows) (lab : ℤ) :
    (lab ≠ 0 → mv ≤ (finiteCount md atlas lab : ℤ) →
      (rows.filter fun r => r.RegionLabel == lab).length = 1 ∧
      ∀ r ∈ rows, r.RegionLabel = lab → r.n_vox = finiteCount md atlas lab) ∧
    ((finiteCount md atlas lab : ℤ) < mv → ∀ r ∈ rows, r.RegionLabel ≠ lab) ∧
    (∀ r ∈ rows, r.RegionLabel ≠ 0) := by
  have ht1 : t < 1 := lt_trans ht2 (by norm_num)
  obtain ⟨hnd, hnz⟩ := rows_label_facts hok
  have hmemchar : ∀ r ∈ rows, r.RegionLabel = lab →
      mv ≤ (finiteCount md atlas lab : ℤ) ∧ r.n_vox = finiteCount md atlas lab := by
    intro r hr hlabeq
    obtain ⟨l2, _, hge, _, hid⟩ := mem_rows_inv hok hr
    have hl2 : r.RegionLabel = l2 := by rw [hid]; rfl
    rw [hlabeq] at hl2
    rw [← hl2] at hge
    refine ⟨hge, ?_⟩
    rw [hid]
    show (finiteVals md.data atlas.data l2).length = finiteCount md atlas lab
    rw [hl2]
    rfl
  refine ⟨?_, ?_, hnz⟩
  · intro hlab hge
    have hex : rescaleRow (rawStatsRow (finiteVals md.data atlas.data lab) lab t) ∈ rows :=
      mem_rows_of_qualifies hsh ht0 ht1 hmv hok hlab hge
    constructor
    · rw [← count_label_eq_filter]
      have hle := List.nodup_iff_count_le_one.1 hnd lab
      have hpos : 0 < (rows.map Row.RegionLabel).count lab :=
        List.count_pos_iff.2 (List.mem_map.2 ⟨_, hex, rfl⟩)
      omega
    · intro r hr hlabeq
      exact (hmemchar r hr hlabeq).2
  · intro hlt r hr
    intro hlabeq
    have := (hmemchar r hr hlabeq).1
    omega

/-- C2, witness at the concrete input, for region label 5. -/
theorem C2_witness :
    ((5:ℤ) ≠ 0 → (1:ℤ) ≤ (finiteCount mdW atlasW 5 : ℤ) →
      (([rowW7, rowW5].filter fun r => r.RegionLabel == 5).length = 1 ∧
        ∀ r ∈ [rowW7, rowW5], r.RegionLabel = 5 → r.n_vox = finiteCount mdW atlasW 5)) ∧
    ((finiteCount mdW atlasW 5 : ℤ) < 1 → ∀ r ∈ [rowW7, rowW5], r.RegionLabel ≠ 5) ∧
    (∀ r ∈ [rowW7, rowW5], r.RegionLabel ≠ 0) :=
  C2_row_per_region mdW atlasW 1 0 [rowW7, rowW5] (by decide) le_rfl le_rfl
    (by norm_num) computeW_eval 5

/-- C3: for every row of the table, the statistics are exactly the
statistics of the winsorized sequence described by the specification
(sort the finite values, `k = ⌊t * n⌋`, clamp the `k` lowest values to the
rank `k + 1` value and the `k` highest to the rank `n - k` value), whose
length equals the length of the finite value sequence; `Q1` and `Q3` are
its 25th and 75th percentiles under the linear interpolation rule
(`npPercentile`), all in the rescaled units. -/
theorem C3_winsorized_statistics (md : Volume (Option ℚ)) (atlas : Volume ℤ)
    (mv : ℤ) (t : ℚ) (rows : List Row)
    (hsh : md.shape = atlas.shape) (hmv : 1 ≤ mv) (ht0 : 0 ≤ t) (ht2 : t < 1/2)
    (hok : compute_roi_table md atlas mv t = .ok rows) :
    ∀ r ∈ rows,
      (winsorizeSpec (finiteVals md.data atlas.data r.RegionLabel) t).length =
        (finiteVals md.data atlas.data r.RegionLabel).length ∧
      r.MeanMD = npMean (winsorizeSpec (finiteVals md.data atlas.data r.RegionLabel) t) * 1000 ∧
      r.MedianMD =
        npMedian (winsorizeSpec (finiteVals md.data atlas.data r.RegionLabel) t) * 1000 ∧
      r.Q1 =
        npPercentile (winsorizeSpec (finiteVals md.data atlas.data r.RegionLabel) t) 25
          * 1000 ∧
      r.Q3 =
        npPercentile (winsorizeSpec (finiteVals md.data atlas.data r.RegionLabel) t) 75
          * 1000 ∧
      r.IQR =
        (npPercentile (winsorizeSpec (finiteVals md.data atlas.data r.RegionLabel) t) 75 -
          npPercentile (winsorizeSpec (finiteVals md.data atlas.data r.RegionLabel) t) 25)
          * 1000 := by
  intro r hr
  obtain ⟨lab, _, hge, hk, hid⟩ := mem_rows_inv hok hr
  have hlabeq : r.RegionLabel = lab := by rw [hid]; rfl
  have hne : finiteVals md.data atlas.data lab ≠ [] := by
    intro hc
    rw [hc] at hge
    simp at hge
    omega
  have hspec := winsorizeSpec_eq ht0 ht2 hne
  have hlen := winsorizeList_length (finiteVals md.data atlas.data lab) t
  rw [hlabeq, hspec, hid]
  exact ⟨hlen, rfl, rfl, rfl, rfl, rfl⟩

/-- C3, witness at the concrete input, on the bottom row of the table. -/
theorem C3_witness :
    (winsorizeSpec (finiteVals mdW.data atlasW.data rowW5.RegionLabel) 0).length =
      (finiteVals mdW.data atlasW.data rowW5.RegionLabel).length ∧
    rowW5.MeanMD =
      npMean (winsorizeSpec (finiteVals mdW.data atlasW.data rowW5.RegionLabel) 0) * 1000 ∧
    rowW5.MedianMD =
      npMedian (winsorizeSpec (finiteVals mdW.data atlasW.data rowW5.RegionLabel) 0) * 1000 ∧
    rowW5.Q1 =
      npPercentile (winsorizeSpec (finiteVals mdW.data atlasW.data rowW5.RegionLabel) 0) 25
        * 1000 ∧
    rowW5.Q3 =
      npPercentile (winsorizeSpec (finiteVals mdW.data atlasW.data rowW5.RegionLabel) 0) 75
        * 1000 ∧
    rowW5.IQR =
      (npPercentile (winsorizeSpec (finiteVals mdW.data atlasW.data rowW5.RegionLabel) 0) 75 -
        npPercentile (winsorizeSpec (finiteVals mdW.data atlasW.data rowW5.RegionLabel) 0) 25)
        * 1000 :=
  C3_winsorized_statistics mdW atlasW 1 0 [rowW7, rowW5] (by decide) le_rfl le_rfl
    (by norm_num) computeW_eval rowW5 (by decide)

/-- C6: every row satisfies `Q1 ≤ MedianMD ≤ Q3` and `IQR = Q3 - Q1`,
hence `IQR ≥ 0` (exactly, since the embedding computes in `ℚ`). -/
theorem C6_quartile_invariants (md : Volume (Option ℚ)) (atlas : Volume ℤ)
    (mv : ℤ) (t : ℚ) (rows : List Row)
    (hok : compute_roi_table md atlas mv t = .ok rows) :
    ∀ r ∈ rows, r.Q1 ≤ r.MedianMD ∧ r.MedianMD ≤ r.Q3 ∧
      r.IQR = r.Q3 - r.Q1 ∧ 0 ≤ r.IQR := by
  intro r hr
  obtain ⟨lab, _, hge, hk, hid⟩ := mem_rows_inv hok hr
  have hwne : winsorizeList (finiteVals md.data atlas.data lab) t ≠ [] := by
    have hlen := winsorizeList_length (finiteVals md.data atlas.data lab) t
    intro hc
    rw [hc] at hlen
    simp at hlen
    omega
  have hsne : 1 ≤ (sortQ (winsorizeList (finiteVals md.data atlas.data lab) t)).length := by
    rw [sortQ_length]
    exact List.length_pos.2 hwne
  have hss := sortQ_sorted (winsorizeList (finiteVals md.data atlas.data lab) t)
  have h2550 := percentileSorted_mono hss hsne (by norm_num : (0:ℚ) ≤ 25)
    (by norm_num : (25:ℚ) ≤ 50) (by norm_num : (50:ℚ) ≤ 100)
  have h5075 := percentileSorted_mono hss hsne (by norm_num : (0:ℚ) ≤ 50)
    (by norm_num : (50:ℚ) ≤ 75) (by norm_num : (75:ℚ) ≤ 100)
  have hmed := npMedian_eq_percentile (winsorizeList (finiteVals md.data atlas.data lab) t) hwne
  rw [hid]
  simp only [rescaleRow, rawStatsRow, mkRawRow, npPercentile]
  refine ⟨?_, ?_, by ring, ?_⟩
  · rw [hmed]
    exact mul_le_mul_of_nonneg_right h2550 (by norm_num)
  · rw [hmed]
    exact mul_le_mul_of_nonneg_right h5075 (by norm_num)
  · have h2575 := le_trans h2550 h5075
    exact mul_nonneg (sub_nonneg.2 h2575) (by norm_num)

/-- C6, witness on a concrete row. -/
theorem C6_witness :
    rowW5.Q1 ≤ rowW5.MedianMD ∧ rowW5.MedianMD ≤ rowW5.Q3 ∧
      rowW5.IQR = rowW5.Q3 - rowW5.Q1 ∧ 0 ≤ rowW5.IQR :=
  C6_quartile_invariants mdW atlasW 1 0 [rowW7, rowW5] computeW_eval rowW5 (by decide)

/-- C8: with `trim = 0` the winsorization step is the identity (up to the
sorted order the winsorized sequence is the sorted finite values), and
every statistic of every row equals the corresponding statistic of the
unwinsorized finite value sequence of its region, rescaled by 1000. -/
theorem C8_trim_zero_identity (md : Volume (Option ℚ)) (atlas : Volume ℤ)
    (mv : ℤ) (rows : List Row)
    (hok : compute_roi_table md atlas mv 0 = .ok rows) :
    ∀ r ∈ rows,
      winsorizeList (finiteVals md.data atlas.data r.RegionLabel) 0 =
        sortQ (finiteVals md.data atlas.data r.RegionLabel) ∧
      r.MeanMD = npMean (finiteVals md.data atlas.data r.RegionLabel) * 1000 ∧
      r.MedianMD = npMedian (finiteVals md.data atlas.data r.RegionLabel) * 1000 ∧
      r.Q1 = npPercentile (finiteVals md.data atlas.data r.RegionLabel) 25 * 1000 ∧
      r.Q3 = npPercentile (finiteVals md.data atlas.data r.RegionLabel) 75 * 1000 ∧
      r.IQR = (npPercentile (finiteVals md.data atlas.data r.RegionLabel) 75 -
        npPercentile (finiteVals md.data atlas.data r.RegionLabel) 25) * 1000 := by
  intro r hr
  obtain ⟨lab, _, hge, hk, hid⟩ := mem_rows_inv hok hr
  have hlabeq : r.RegionLabel = lab := by rw [hid]; rfl
  rw [hlabeq, hid]
  simp [rescaleRow, rawStatsRow, mkRawRow, winsorizeList_zero, npMean_sortQ,
    npMedian_sortQ, npPercentile_sortQ]

/-- C8, witness at the concrete input (which uses `trim = 0`). -/
theorem C8_witness :
    winsorizeList (finiteVals mdW.data atlasW.data rowW5.RegionLabel) 0 =
      sortQ (finiteVals mdW.data atlasW.data rowW5.RegionLabel) ∧
    rowW5.MeanMD = npMean (finiteVals mdW.data atlasW.data rowW5.RegionLabel) * 1000 ∧
    rowW5.MedianMD = npMedian (finiteVals mdW.data atlasW.data rowW5.RegionLabel) * 1000 ∧
    rowW5.Q1 = npPercentile (finiteVals mdW.data atlasW.data rowW5.RegionLabel) 25 * 1000 ∧
    rowW5.Q3 = npPercentile (finiteVals mdW.data atlasW.data rowW5.RegionLabel) 75 * 1000 ∧
    rowW5.IQR = (npPercentile (finiteVals mdW.data atlasW.data rowW5.RegionLabel) 75 -
      npPercentile (finiteVals mdW.data atlasW.data rowW5.RegionLabel) 25) * 1000 :=
  C8_trim_zero_identity mdW atlasW 1 [rowW7, rowW5] computeW_eval rowW5 (by decide)

/-- C10: every statistic of a row lies between 1000 times the smallest and
1000 times the largest finite value of its region: winsorization only
clamps to members of the sample, and mean, median and interpolated
percentiles stay within the range of their input. -/
theorem C10_stats_in_range (md : Volume (Option ℚ)) (atlas : Volume ℤ)
    (mv : ℤ) (t : ℚ) (rows : List Row)
    (hok : compute_roi_table md atlas mv t = .ok rows) :
    ∀ r ∈ rows,
      (sMin (finiteVals md.data atlas.data r.RegionLabel) * 1000 ≤ r.MeanMD ∧
        r.MeanMD ≤ sMax (finiteVals md.data atlas.data r.RegionLabel) * 1000) ∧
      (sMin (finiteVals md.data atlas.data r.RegionLabel) * 1000 ≤ r.MedianMD ∧
        r.MedianMD ≤ sMax (finiteVals md.data atlas.data r.RegionLabel) * 1000) ∧
      (sMin (finiteVals md.data atlas.data r.RegionLabel) * 1000 ≤ r.Q1 ∧
        r.Q1 ≤ sMax (finiteVals md.data atlas.data r.RegionLabel) * 1000) ∧
      (sMin (finiteVals md.data atlas.data r.RegionLabel) * 1000 ≤ r.Q3 ∧
        r.Q3 ≤ sMax (finiteVals md.data atlas.data r.RegionLabel) * 1000) := by
  intro r hr
  obtain ⟨lab, _, hge, hk, hid⟩ := mem_rows_inv hok hr
  have hlabeq : r.RegionLabel = lab := by rw [hid]; rfl
  have hmemw : ∀ x ∈ winsorizeList (finiteVals md.data atlas.data lab) t,
      sMin (finiteVals md.data atlas.data lab) ≤ x ∧
        x ≤ sMax (finiteVals md.data atlas.data lab) := by
    intro x hx
    have hxv := winsorizeList_mem hk hx
    exact ⟨sMin_le_mem hxv, mem_le_sMax hxv⟩
  have hwne : winsorizeList (finiteVals md.data atlas.data lab) t ≠ [] := by
    have hlen := winsorizeList_length (finiteVals md.data atlas.data lab) t
    intro hc
    rw [hc] at hlen
    simp at hlen
    omega
  have hmean := npMean_bounds hwne (fun x hx => (hmemw x hx).1) (fun x hx => (hmemw x hx).2)
  have hsne : 1 ≤ (sortQ (winsorizeList (finiteVals md.data atlas.data lab) t)).length := by
    rw [sortQ_length]
    exact List.length_pos.2 hwne
  have hptile : ∀ q : ℚ, 0 ≤ q → q ≤ 100 →
      sMin (finiteVals md.data atlas.data lab) ≤
        percentileSorted (sortQ (winsorizeList (finiteVals md.data atlas.data lab) t)) q ∧
      percentileSorted (sortQ (winsorizeList (finiteVals md.data atlas.data lab) t)) q ≤
        sMax (finiteVals md.data atlas.data lab) := by
    intro q h0 h1
    exact percentileSorted_bounds (sortQ_sorted _) hsne
      (fun x hx => (hmemw x (mem_sortQ.1 hx)).1)
      (fun x hx => (hmemw x (mem_sortQ.1 hx)).2) h0 h1
  have hmed := npMedian_eq_percentile (winsorizeList (finiteVals md.data atlas.data lab) t) hwne
  have hscale : ∀ a b : ℚ, a ≤ b → a * 1000 ≤ b * 1000 := fun a b h =>
    mul_le_mul_of_nonneg_right h (by norm_num)
  rw [hlabeq, hid]
  simp only [rescaleRow, rawStatsRow, mkRawRow, npPercentile]
  refine ⟨⟨hscale _ _ hmean.1, hscale _ _ hmean.2⟩, ?_, ?_, ?_⟩
  · rw [hmed]
    exact ⟨hscale _ _ (hptile 50 (by norm_num) (by norm_num)).1,
      hscale _ _ (hptile 50 (by norm_num) (by norm_num)).2⟩
  · exact ⟨hscale _ _ (hptile 25 (by norm_num) (by norm_num)).1,
      hscale _ _ (hptile 25 (by norm_num) (by norm_num)).2⟩
  · exact ⟨hscale _ _ (hptile 75 (by norm_num) (by norm_num)).1,
      hscale _ _ (hptile 75 (by norm_num) (by norm_num)).2⟩

/-- C10, witness on a concrete row. -/
theorem C10_witness :
    (sMin (finiteVals mdW.data atlasW.data rowW5.RegionLabel) * 1000 ≤ rowW5.MeanMD ∧
      rowW5.MeanMD ≤ sMax (finiteVals mdW.data atlasW.data rowW5.RegionLabel) * 1000) ∧
    (sMin (finiteVals mdW.data atlasW.data rowW5.RegionLabel) * 1000 ≤ rowW5.MedianMD ∧
      rowW5.MedianMD ≤ sMax (finiteVals mdW.data atlasW.data rowW5.RegionLabel) * 1000) ∧
    (sMin (finiteVals mdW.data atlasW.data rowW5.RegionLabel) * 1000 ≤ rowW5.Q1 ∧
      rowW5.Q1 ≤ sMax (finiteVals mdW.data atlasW.data rowW5.RegionLabel) * 1000) ∧
    (sMin (finiteVals mdW.data atlasW.data rowW5.RegionLabel) * 1000 ≤ rowW5.Q3 ∧
      rowW5.Q3 ≤ sMax (finiteVals mdW.data atlasW.data rowW5.RegionLabel) * 1000) :=
  C10_stats_in_range mdW atlasW 1 0 [rowW7, rowW5] computeW_eval rowW5 (by decide)
